import Mathlib

/-!
Verification of the TextIntel Incremental Corpus Synchronization & Model
Lifecycle Orchestrator (src/retrain_model.py and src/app.py), as a shallow
embedding in Lean 4.

The embedding keeps the source's names and structure.  External library
behaviour that the code relies on (Python's unicodedata tables and the
regex whitespace class) is modelled by a parameter record UnicodeModel,
with the facts the proofs need about real Unicode stated as the Prop
record UnicodeModel.Lawful; everything else is a direct translation of
the Python functions.  The CSV file is modelled as an optional list of
lines (none meaning the file does not exist), a line being a list of
characters; pandas read_csv/to_csv are modelled for the unquoted layout
this program reads and writes, including the NaN reading of empty or
missing fields (which astype(str)/str() render as the string form of
NaN), the label rename and needed-columns reset of the reader, and the
EmptyDataError that a zero-byte file raises out of the append.
-/

namespace TextIntel

/-- Model of the external Unicode/regex facilities used by sanitize_text:
nfkc is unicodedata.normalize applied with form NFKC, cat0 gives the first
letter of unicodedata.category, and isSpace is the character class matched
by the regex escape for whitespace (also used for str.strip). -/
structure UnicodeModel where
  nfkc : String → String
  cat0 : Char → Char
  isSpace : Char → Bool

/-- ASCII alphanumeric characters, the letters and digits kept by the
character-class filter in sanitize_text. -/
def asciiAlnum (c : Char) : Bool :=
  ('a' ≤ c && c ≤ 'z') || ('A' ≤ c && c ≤ 'Z') || ('0' ≤ c && c ≤ '9')

/-- Characters that can appear in the output of sanitize_text:
ASCII letters and digits, the full stop, and the single space. -/
def sanOutChar (c : Char) : Bool :=
  asciiAlnum c || c == '.' || c == ' '

/-- Facts about real Unicode that the idempotence argument uses: NFKC fixes
strings made of ASCII alphanumerics, full stop and space; those characters
are not in a control category; the space is whitespace while alphanumerics
and the full stop are not. -/
structure UnicodeModel.Lawful (U : UnicodeModel) : Prop where
  nfkc_fixed : ∀ s : String, (∀ c ∈ s.toList, sanOutChar c = true) → U.nfkc s = s
  cat0_not_control : ∀ c : Char, sanOutChar c = true → U.cat0 c ≠ 'C'
  space_isSpace : U.isSpace ' ' = true
  alnum_not_space : ∀ c : Char, (asciiAlnum c || c == '.') = true → U.isSpace c = false

/-- Collapse every maximal run of whitespace characters into a single
space: the model of re.sub applied to the whitespace-run pattern with a
single-space replacement. -/
def collapseWs (isSp : Char → Bool) : List Char → List Char
  | [] => []
  | c :: cs =>
    let rest := collapseWs isSp cs
    if isSp c then
      match rest with
      | r :: rs => if isSp r then r :: rs else ' ' :: r :: rs
      | [] => [' ']
    else c :: rest

/-- Drop trailing whitespace characters. -/
def dropTrailingSp (isSp : Char → Bool) : List Char → List Char
  | [] => []
  | c :: cs =>
    let t := dropTrailingSp isSp cs
    if t.isEmpty then (if isSp c then [] else [c]) else c :: t

/-- Model of Python str.strip: drop leading and trailing whitespace. -/
def pyStrip (isSp : Char → Bool) (l : List Char) : List Char :=
  dropTrailingSp isSp (l.dropWhile isSp)

/-- Two adjacent characters are not both whitespace: the shape of a
string in which every whitespace run has already been collapsed. -/
def notSpPair (isSp : Char → Bool) (a b : Char) : Prop :=
  ¬(isSp a = true ∧ isSp b = true)

/-- The first character, if any, is not whitespace. -/
def headNotSp (isSp : Char → Bool) : List Char → Bool
  | [] => true
  | c :: _ => !isSp c

/-- The last character, if any, is not whitespace. -/
def lastNotSp (isSp : Char → Bool) : List Char → Bool
  | [] => true
  | [c] => !isSp c
  | _ :: c :: t => lastNotSp isSp (c :: t)

/-- sanitize_text from src/retrain_model.py: NFKC-normalize, remove
control-category characters, keep only ASCII letters, digits, whitespace
and the full stop, then collapse whitespace runs to single spaces and
strip the ends. -/
def sanitize_text (U : UnicodeModel) (s : String) : String :=
  let t1 := U.nfkc s
  let t2 := t1.toList.filter (fun c => U.cat0 c != 'C')
  let t3 := t2.filter (fun c => asciiAlnum c || U.isSpace c || c == '.')
  String.mk (pyStrip U.isSpace (collapseWs U.isSpace t3))

/-- Python str.lower, character by character (the call sites only
distinguish the ASCII range: dedup keys are lowercased sanitized ASCII
text, labels are compared against ASCII literals). -/
def pyLower (s : String) : String :=
  String.mk (s.toList.map Char.toLower)

/-- dedupe_key from src/retrain_model.py: the sanitized text, case-folded. -/
def dedupe_key (U : UnicodeModel) (s : String) : String :=
  pyLower (sanitize_text U s)

/-- _normalize_label from src/retrain_model.py: strip then lowercase. -/
def _normalize_label (U : UnicodeModel) (s : String) : String :=
  pyLower (String.mk (pyStrip U.isSpace s.toList))

/-- VALID_LABELS from src/retrain_model.py. -/
def VALID_LABELS : List String := ["benign", "suspicious", "critical"]

/-- A row of the remote classified_messages table as the core sees it:
id, text, classification (SQL columns may be NULL) and the tri-state
trained flag. -/
structure RemoteRecord where
  id : Int
  text : Option String
  classification : Option String
  trained : Option Bool
deriving Repr, DecidableEq

/-- A row of the candidate DataFrame returned by fetch_untrained_db_rows:
exactly the columns id, text, classification. -/
structure DbRow where
  id : Int
  text : Option String
  classification : Option String
deriving Repr, DecidableEq

/-- A candidate row after dropna: both fields known present. -/
structure CleanRow where
  id : Int
  text : String
  classification : String
deriving Repr, DecidableEq

/-- A parsed CSV data row: the two-column (text, classification) schema. -/
structure CsvRow where
  text : String
  classification : String
deriving Repr, DecidableEq

/-- A raw line of the CSV file. -/
abbrev Line := List Char

/-- The header line written by _ensure_csv_header_exists and by to_csv. -/
def headerLine : Line := "text,classification".toList

/-- _ensure_csv_header_exists: create the file with just the header when
it does not exist; leave an existing file untouched. -/
def ensure_csv_header_exists (f : Option (List Line)) : List Line :=
  match f with
  | none => [headerLine]
  | some ls => ls

/-- Split a line at commas (model of the pandas field tokenizer for
unquoted fields). -/
def splitFields : List Char → List (List Char)
  | [] => [[]]
  | c :: cs =>
    if c = ',' then [] :: splitFields cs
    else
      match splitFields cs with
      | f :: r => (c :: f) :: r
      | [] => [[c]]

/-- What a frame cell yields under astype(str) or str() when the CSV
field was empty: pandas reads an empty unquoted field as NaN, and the
string form of NaN is the three letters n, a, n. -/
def fieldToStr (f : List Char) : String :=
  if f.isEmpty then "nan" else String.mk f

/-- The column names of a read frame: the fields of the header line. -/
def headerCols (h : Line) : List String :=
  (splitFields h).map String.mk

/-- The label-to-classification rename applied by both readers
(src/retrain_model.py lines 212-213 and 260-261). -/
def renameCols (cols : List String) : List String :=
  if cols.contains "label" && !cols.contains "classification" then
    cols.map fun c => if c = "label" then "classification" else c
  else cols

/-- The needed-columns test of both readers (lines 215-217 and 263). -/
def schemaOk (cols : List String) : Bool :=
  cols.contains "text" && cols.contains "classification"

/-- The renamed column list of a file's header line. -/
def renamedCols (h : Line) : List String :=
  renameCols (headerCols h)

/-- Decode one data line positionally under the given columns, the way
pandas tokenizes it: a line with more fields than columns is a bad line
(skipped by the on_bad_lines fallback after the first read raises),
missing trailing fields are NaN-padded, and a present-but-empty field is
NaN; each cell is then viewed through astype(str) or str(), so empty and
missing fields read back as the string form of NaN. -/
def decodeLineCols (cols : List String) (l : Line) : Option CsvRow :=
  if (splitFields l).length > cols.length then none
  else some ⟨fieldToStr (((splitFields l).get? (cols.indexOf "text")).getD []),
             fieldToStr (((splitFields l).get? (cols.indexOf "classification")).getD [])⟩

/-- Model of the CSV reader of append_db_rows_to_csv (src/retrain_model.py
lines 253-265): a zero-byte file raises EmptyDataError (in the fallback
read as well, so the exception escapes the function); otherwise the first
line is the header, the label column is renamed, and when the needed
columns are still missing the frame is reset to an empty one — emptying
the dedup key set the caller builds from it. -/
def read_csv (ls : List Line) : Except String (List CsvRow) :=
  match ls with
  | [] => .error "EmptyDataError"
  | h :: data =>
    if schemaOk (renamedCols h) then
      .ok (data.filterMap (decodeLineCols (renamedCols h)))
    else .ok []

/-- Encode a surviving row the way to_csv writes it. -/
def encodeRow (r : CleanRow) : Line :=
  r.text.toList ++ ',' :: r.classification.toList

/-- dropna over the candidate frame: keep rows where both text and
classification are present. -/
def dropnaRows (rows : List DbRow) : List CleanRow :=
  rows.filterMap fun r =>
    match r.text, r.classification with
    | some t, some c => some ⟨r.id, t, c⟩
    | _, _ => none

/-- The candidate batch after dropna, label normalization and the
valid-label filter (lines 242-244 of src/retrain_model.py). -/
def validRows (U : UnicodeModel) (rows : List DbRow) : List CleanRow :=
  ((dropnaRows rows).map fun r => { r with classification := _normalize_label U r.classification })
    |>.filter fun r => VALID_LABELS.contains r.classification

/-- The candidate batch with text sanitized (line 250). -/
def sanitizedBatch (U : UnicodeModel) (rows : List DbRow) : List CleanRow :=
  (validRows U rows).map fun r => { r with text := sanitize_text U r.text }

/-- The dedup keys of the existing CSV rows (line 268): computed from the
re-read text of each row under astype(str) — a row stored with an empty
text field therefore contributes the key of the string form of NaN, not
the key of the empty string. -/
def existing_keys (U : UnicodeModel) (rows : List CsvRow) : List String :=
  rows.map fun r => dedupe_key U r.text

/-- drop_duplicates on the key column keeping the first occurrence
(line 274), written with an accumulator of keys already seen. -/
def dropDupFirst (U : UnicodeModel) (seen : List String) : List CleanRow → List CleanRow
  | [] => []
  | r :: rs =>
    let k := dedupe_key U r.text
    if seen.contains k then dropDupFirst U seen rs
    else r :: dropDupFirst U (k :: seen) rs

/-- The rows that survive both batch-level and corpus-level dedup
(line 277): first-seen within the batch, key not among the re-read keys
of the given frame. -/
def to_append (U : UnicodeModel) (csvRows : List CsvRow) (rows : List DbRow) : List CleanRow :=
  (dropDupFirst U [] (sanitizedBatch U rows)).filter
    fun r => !(existing_keys U csvRows).contains (dedupe_key U r.text)

/-- append_db_rows_to_csv from src/retrain_model.py, as a function from
the candidate frame and the current file to the appended ids and the new
file, or the exception that escaped.  Mirrors the source's order:
empty-frame early return; dropna, label normalization and valid-label
filter with early return; sanitize; ensure the header exists; read the
CSV (the read of a zero-byte file raises out of the function); dedup
against batch and corpus; early return when nothing survives; append
(with a header line first when the existing frame had no data rows,
to_csv in append mode); return the ids of the appended rows. -/
def append_db_rows_to_csv (U : UnicodeModel) (f : Option (List Line))
    (db_df : List DbRow) : Except String (List Int × Option (List Line)) :=
  if db_df.isEmpty then .ok ([], f)
  else if (validRows U db_df).isEmpty then .ok ([], f)
  else
    match read_csv (ensure_csv_header_exists f) with
    | .error e => .error e
    | .ok csvRows =>
      if (to_append U csvRows db_df).isEmpty then .ok ([], some (ensure_csv_header_exists f))
      else
        -- write_header: the exists test is always true here (ensure ran
        -- just above), so only the empty-frame disjunct can make it true
        .ok ((to_append U csvRows db_df).map (·.id),
          some (ensure_csv_header_exists f
            ++ (if csvRows.isEmpty then [headerLine] else [])
            ++ (to_append U csvRows db_df).map encodeRow))

/-- The id list an append call produced: empty when it raised. -/
def idsOf (res : Except String (List Int × Option (List Line))) : List Int :=
  match res with
  | .ok (ids, _) => ids
  | .error _ => []

/-- The corpus file on disk after an append call: the written file when
the call returned, the unchanged input file when it raised. -/
def fileAfter (res : Except String (List Int × Option (List Line)))
    (f : Option (List Line)) : Option (List Line) :=
  match res with
  | .ok (_, fNew) => fNew
  | .error _ => f

/-- A corpus file on which the reader is faithful to the writer: absent
(the canonical header gets created), or nonempty with a header whose
renamed columns pass the schema check and put text and classification in
the first two positions — the layout of every file this program writes.
A zero-byte file (read raises) or a file with a malformed or reordered
header is excluded. -/
def goodFile (f : Option (List Line)) : Bool :=
  match f with
  | none => true
  | some [] => false
  | some (h :: _) =>
    schemaOk (renamedCols h) && (renamedCols h).indexOf "text" == 0
      && (renamedCols h).indexOf "classification" == 1

/-- The SQL WHERE clause of fetch_untrained_db_rows: trained false or
null, classification one of the known tiers (NULL never matches IN). -/
def sqlEligible (r : RemoteRecord) : Bool :=
  (r.trained == some false || r.trained == none) &&
  (match r.classification with
   | some c => VALID_LABELS.contains c
   | none => false)

/-- fetch_untrained_db_rows from src/retrain_model.py: on any database
failure return the empty frame with columns id, text, classification; on
success run the query and sanitize the text column in place (the pandas
map hands a SQL NULL to sanitize_text as the Python None value, which it
stringifies to the four letters N, o, n, e before sanitizing). -/
def fetch_untrained_db_rows (U : UnicodeModel)
    (db : Except String (List RemoteRecord)) : List DbRow :=
  match db with
  | .error _ => []
  | .ok table =>
    let df := (table.filter sqlEligible).map
      fun r => ({ id := r.id, text := r.text, classification := r.classification } : DbRow)
    if df.isEmpty then df
    else df.map fun r => { r with text := some (sanitize_text U (r.text.getD "None")) }

/-- load_csv_data from src/retrain_model.py: ensure the header, read the
corpus (a zero-byte file raises EmptyDataError, a header still missing a
needed column after the rename raises ValueError), view the text column
through astype(str), normalize labels, keep only valid-label rows. -/
def load_csv_data (U : UnicodeModel) (f : Option (List Line)) :
    Except String (List CsvRow) :=
  match ensure_csv_header_exists f with
  | [] => .error "EmptyDataError"
  | h :: data =>
    if schemaOk (renamedCols h) then
      .ok (((data.filterMap (decodeLineCols (renamedCols h))).map
          fun r => { r with classification := _normalize_label U r.classification })
        |>.filter fun r => VALID_LABELS.contains r.classification)
    else .error "ValueError"

/-- The synchronizer portion of main (steps 1 and 2): fetch untrained
rows, append them to the CSV, keep the ids actually appended; an
exception from the append escapes. -/
def sync_pipeline (U : UnicodeModel) (db : Except String (List RemoteRecord))
    (f : Option (List Line)) : Except String (List Int × Option (List Line)) :=
  append_db_rows_to_csv U f (fetch_untrained_db_rows U db)

/-- The artifact files on disk, each tagged with the generation whose
contents it currently holds: model_metrics.json, tokenizer.pkl,
sentiment.json, sentiment.weights.h5, sentiments.h5. -/
structure ArtifactFS where
  metricsFile : Nat
  tokenizerFile : Nat
  modelJsonFile : Nat
  weightsFile : Nat
  modelH5File : Nat
deriving Repr, DecidableEq

/-- save_artifacts from src/retrain_model.py as its sequence of writes:
each step overwrites one artifact file in place, at its fixed path, in
source order (metrics, tokenizer, model JSON, weights, full model).
There is no temporary file and no rename. -/
def save_artifacts_steps (g : Nat) : List (ArtifactFS → ArtifactFS) :=
  [fun fs => { fs with metricsFile := g },
   fun fs => { fs with tokenizerFile := g },
   fun fs => { fs with modelJsonFile := g },
   fun fs => { fs with weightsFile := g },
   fun fs => { fs with modelH5File := g }]

/-- Run a list of file-system steps in order. -/
def runSteps (steps : List (ArtifactFS → ArtifactFS)) (fs : ArtifactFS) : ArtifactFS :=
  steps.foldl (fun a f => f a) fs

/-- A file system whose artifact files all hold generation g. -/
def uniformFS (g : Nat) : ArtifactFS := ⟨g, g, g, g, g⟩

/-- load_model_and_tokenizer from src/app.py observes tokenizer.pkl and
sentiments.h5 (the MODEL_PATH it loads): the generations it reads. -/
def load_model_and_tokenizer (fs : ArtifactFS) : Nat × Nat :=
  (fs.tokenizerFile, fs.modelH5File)

/-- State of the lock and of the training runs.  ownerAlive is ghost
environment state recording whether the process that wrote the current
token is still alive; no function of the program ever reads it.
runsStarted counts training executions begun. -/
structure OrchState where
  lock : Option Nat
  ownerAlive : Bool
  runsStarted : Nat
deriving Repr, DecidableEq

/-- touch_training_lock from src/retrain_model.py: open the lock path for
writing and write the current time, whatever was there before. -/
def touch_training_lock (now : Nat) (s : OrchState) : OrchState :=
  { s with lock := some now }

/-- graceful_lock_cleanup from src/retrain_model.py: remove the lock file
if it exists. -/
def graceful_lock_cleanup (s : OrchState) : OrchState :=
  { s with lock := none }

/-- main from src/retrain_model.py restricted to its lock discipline:
touch the lock unconditionally, run the training body (counted in
runsStarted), and remove the lock in the finally block.  No read of any
existing token, no staleness or liveness test, happens anywhere. -/
def retrain_main (now : Nat) (s : OrchState) : OrchState :=
  let s1 := touch_training_lock now s
  let s2 := { s1 with runsStarted := s1.runsStarted + 1 }
  graceful_lock_cleanup s2

/-- The retrain endpoint of src/app.py: it schedules run_retrain, which
executes retrain_model.py, and returns no body at all (in particular
never an already_running signal).  It performs no lock check. -/
def request_retrain (now : Nat) (s : OrchState) : Option String × OrchState :=
  (none, retrain_main now s)

/-- The metrics file written by save_artifacts: val_accuracy and
trained_examples. -/
structure MetricsJson where
  val_accuracy : Rat
  trained_examples : Int
deriving Repr, DecidableEq

/-- The observable state read by get_model_metrics: the metrics file, the
number of data rows of the corpus CSV (none when the file is missing),
whether training.lock exists, the two untrained-count queries (none when
the query fails), and the accuracy recomputed from validation.csv (none
when any of model, tokenizer or validation.csv fails to load). -/
structure ApiState where
  metricsFile : Option MetricsJson
  datasetCsvRows : Option Nat
  lockExists : Bool
  untrainedValid : Option Nat
  untrainedAny : Option Nat
  validationEval : Option Rat
deriving Repr, DecidableEq

/-- The response of the metrics endpoint. -/
structure MetricsResponse where
  val_accuracy : Option Rat
  trained_examples : Int
  new_db_examples : Int
  training : Bool
deriving Repr, DecidableEq

/-- get_model_metrics from src/app.py.  The metrics file is read into a
local that the return statement never uses; a fallback row count of the
dataset CSV is computed into a local that the return statement never uses
either; the returned trained_examples is the literal 3. -/
def get_model_metrics (s : ApiState) : MetricsResponse :=
  let _metrics := s.metricsFile
  let _trained_examples_local := (s.datasetCsvRows.getD 0 : Int)
  let training := s.lockExists
  let new_db_examples : Int :=
    match s.untrainedValid with
    | some n => (n : Int)
    | none =>
      match s.untrainedAny with
      | some n => (n : Int)
      | none => 0
  { val_accuracy := s.validationEval
    trained_examples := 3
    new_db_examples := new_db_examples
    training := training }

/-- RANDOM_STATE from src/retrain_model.py. -/
def RANDOM_STATE : Nat := 42

/-- VAL_SPLIT from src/retrain_model.py. -/
def VAL_SPLIT : Rat := 1 / 10

/-- The four arrays returned by a split. -/
structure SplitResult (α β : Type) where
  xTrain : List α
  xVal : List α
  yTrain : List β
  yVal : List β
deriving DecidableEq

/-- sklearn train_test_split, modelled over its documented seeding
contract: seededSplit is the (opaque, deterministic) shuffled splitter;
with an integer random_state the result depends only on the data, the
test size and that seed; with random_state None the ambient generator
state is consumed; with shuffle off the data is sliced in order. -/
def train_test_split {α β : Type}
    (seededSplit : Rat → Nat → List α → List β → SplitResult α β)
    (X : List α) (y : List β) (testSize : Rat) (randomState : Option Nat)
    (shuffle : Bool) (rng : Nat) : SplitResult α β × Nat :=
  if shuffle then
    match randomState with
    | some s => (seededSplit testSize s X y, rng)
    | none => (seededSplit testSize rng X y, rng + 1)
  else
    (⟨X.drop (X.length / 2), X.take (X.length / 2),
      y.drop (y.length / 2), y.take (y.length / 2)⟩, rng)

/-- The split call of main (src/retrain_model.py lines 384-386):
train_test_split with test_size VAL_SPLIT, random_state RANDOM_STATE and
shuffle on. -/
def main_split {α β : Type}
    (seededSplit : Rat → Nat → List α → List β → SplitResult α β)
    (rng : Nat) (X : List α) (y : List β) : SplitResult α β × Nat :=
  train_test_split seededSplit X y VAL_SPLIT (some RANDOM_STATE) true rng

/-- A concrete lawful Unicode model used to evaluate the development on
closed inputs: identity normalization, a category function that marks
exactly the non-output characters as control, and the single space as the
only whitespace character. -/
def asciiU : UnicodeModel where
  nfkc := id
  cat0 := fun c => if sanOutChar c then 'L' else 'C'
  isSpace := fun c => c == ' '

/-! ### Lemmas about whitespace collapsing and stripping -/

theorem mem_collapseWs (isSp : Char → Bool) (l : List Char) (c : Char)
    (h : c ∈ collapseWs isSp l) : c = ' ' ∨ (c ∈ l ∧ isSp c = false) := by
  induction l with
  | nil => simp [collapseWs] at h
  | cons a as ih =>
    simp only [collapseWs] at h
    by_cases ha : isSp a = true
    · rw [if_pos ha] at h
      cases hr : collapseWs isSp as with
      | nil =>
        rw [hr] at h
        simp at h
        exact Or.inl h
      | cons r rs =>
        rw [hr] at h
        dsimp only at h
        by_cases hrs : isSp r = true
        · rw [if_pos hrs] at h
          rcases ih (hr ▸ h) with h' | ⟨hm, hs⟩
          · exact Or.inl h'
          · exact Or.inr ⟨List.mem_cons_of_mem a hm, hs⟩
        · rw [if_neg hrs] at h
          rcases List.mem_cons.mp h with rfl | h'
          · exact Or.inl rfl
          · rcases ih (hr ▸ h') with h'' | ⟨hm, hs⟩
            · exact Or.inl h''
            · exact Or.inr ⟨List.mem_cons_of_mem a hm, hs⟩
    · rw [if_neg ha] at h
      rcases List.mem_cons.mp h with rfl | h'
      · exact Or.inr ⟨List.mem_cons_self _ _, Bool.not_eq_true _ ▸ ha⟩
      · rcases ih h' with h'' | ⟨hm, hs⟩
        · exact Or.inl h''
        · exact Or.inr ⟨List.mem_cons_of_mem a hm, hs⟩

theorem chain'_collapseWs (isSp : Char → Bool) (l : List Char) :
    List.Chain' (notSpPair isSp) (collapseWs isSp l) := by
  induction l with
  | nil => simp [collapseWs]
  | cons a as ih =>
    simp only [collapseWs]
    by_cases ha : isSp a = true
    · rw [if_pos ha]
      cases hr : collapseWs isSp as with
      | nil => simp
      | cons r rs =>
        rw [hr] at ih
        dsimp only
        by_cases hrs : isSp r = true
        · rw [if_pos hrs]; exact ih
        · rw [if_neg hrs]
          refine List.chain'_cons'.mpr ⟨?_, ih⟩
          intro b hb
          simp at hb
          subst hb
          exact fun hc => hrs hc.2
    · rw [if_neg ha]
      refine List.chain'_cons'.mpr ⟨?_, ih⟩
      intro b _
      exact fun hc => ha hc.1

theorem collapseWs_eq_self (isSp : Char → Bool) (l : List Char)
    (hch : List.Chain' (notSpPair isSp) l)
    (hsp : ∀ c ∈ l, isSp c = true → c = ' ') : collapseWs isSp l = l := by
  induction l with
  | nil => rfl
  | cons a as ih =>
    have hch' : List.Chain' (notSpPair isSp) as := (List.chain'_cons'.mp hch).2
    have hrest : collapseWs isSp as = as :=
      ih hch' (fun c hc => hsp c (List.mem_cons_of_mem a hc))
    simp only [collapseWs, hrest]
    by_cases ha : isSp a = true
    · rw [if_pos ha]
      have haeq : a = ' ' := hsp a (List.mem_cons_self _ _) ha
      cases as with
      | nil => rw [haeq]
      | cons b bs =>
        have hpair := (List.chain'_cons'.mp hch).1 b (by simp)
        have hb : isSp b = false := by
          rcases Bool.eq_false_or_eq_true (isSp b) with h | h
          · exact absurd ⟨ha, h⟩ hpair
          · exact h
        dsimp only
        rw [if_neg (by simp [hb]), haeq]
    · rw [if_neg ha]

theorem mem_dropWhile (p : Char → Bool) (l : List Char) (a : Char)
    (h : a ∈ l.dropWhile p) : a ∈ l := by
  induction l with
  | nil => simp at h
  | cons c cs ih =>
    rw [List.dropWhile_cons] at h
    by_cases hc : p c = true
    · rw [if_pos hc] at h
      exact List.mem_cons_of_mem c (ih h)
    · rw [if_neg hc] at h
      exact h

theorem chain'_dropWhile (R : Char → Char → Prop) (p : Char → Bool) (l : List Char)
    (h : List.Chain' R l) : List.Chain' R (l.dropWhile p) := by
  induction l with
  | nil => simp
  | cons c cs ih =>
    rw [List.dropWhile_cons]
    by_cases hc : p c = true
    · rw [if_pos hc]
      exact ih (List.chain'_cons'.mp h).2
    · rw [if_neg hc]
      exact h

theorem headNotSp_dropWhile (isSp : Char → Bool) (l : List Char) :
    headNotSp isSp (l.dropWhile isSp) = true := by
  induction l with
  | nil => rfl
  | cons c cs ih =>
    rw [List.dropWhile_cons]
    by_cases hc : isSp c = true
    · rw [if_pos hc]; exact ih
    · rw [if_neg hc]
      simp [headNotSp, Bool.not_eq_true _ ▸ hc]

theorem dropWhile_eq_self_of_headNotSp (isSp : Char → Bool) (l : List Char)
    (h : headNotSp isSp l = true) : l.dropWhile isSp = l := by
  cases l with
  | nil => rfl
  | cons c cs =>
    simp only [headNotSp, Bool.not_eq_true'] at h
    rw [List.dropWhile_cons, if_neg (by simp [h])]

theorem mem_dropTrailingSp (isSp : Char → Bool) (l : List Char) (a : Char)
    (h : a ∈ dropTrailingSp isSp l) : a ∈ l := by
  induction l with
  | nil => simp [dropTrailingSp] at h
  | cons c cs ih =>
    simp only [dropTrailingSp] at h
    by_cases ht : (dropTrailingSp isSp cs).isEmpty = true
    · rw [if_pos ht] at h
      by_cases hc : isSp c = true
      · rw [if_pos hc] at h; simp at h
      · rw [if_neg hc] at h
        simp at h
        simp [h]
    · rw [if_neg ht] at h
      rcases List.mem_cons.mp h with rfl | h'
      · exact List.mem_cons_self _ _
      · exact List.mem_cons_of_mem c (ih h')

theorem head?_dropTrailingSp (isSp : Char → Bool) (l : List Char)
    (h : dropTrailingSp isSp l ≠ []) :
    (dropTrailingSp isSp l).head? = l.head? := by
  cases l with
  | nil => simp [dropTrailingSp] at h
  | cons c cs =>
    simp only [dropTrailingSp] at h ⊢
    by_cases ht : (dropTrailingSp isSp cs).isEmpty = true
    · rw [if_pos ht] at h ⊢
      by_cases hc : isSp c = true
      · rw [if_pos hc] at h; simp at h
      · rw [if_neg hc]; rfl
    · rw [if_neg ht] at h ⊢; rfl

theorem chain'_dropTrailingSp (isSp : Char → Bool) (l : List Char)
    (h : List.Chain' (notSpPair isSp) l) :
    List.Chain' (notSpPair isSp) (dropTrailingSp isSp l) := by
  induction l with
  | nil => simp [dropTrailingSp]
  | cons c cs ih =>
    simp only [dropTrailingSp]
    by_cases ht : (dropTrailingSp isSp cs).isEmpty = true
    · rw [if_pos ht]
      by_cases hc : isSp c = true
      · rw [if_pos hc]; simp
      · rw [if_neg hc]; simp
    · rw [if_neg ht]
      have htail := ih (List.chain'_cons'.mp h).2
      refine List.chain'_cons'.mpr ⟨?_, htail⟩
      intro b hb
      have hne : dropTrailingSp isSp cs ≠ [] := by
        intro hnil; rw [hnil] at ht; simp at ht
      rw [head?_dropTrailingSp isSp cs hne] at hb
      exact (List.chain'_cons'.mp h).1 b hb

theorem lastNotSp_dropTrailingSp (isSp : Char → Bool) (l : List Char) :
    lastNotSp isSp (dropTrailingSp isSp l) = true := by
  induction l with
  | nil => rfl
  | cons c cs ih =>
    simp only [dropTrailingSp]
    by_cases ht : (dropTrailingSp isSp cs).isEmpty = true
    · rw [if_pos ht]
      by_cases hc : isSp c = true
      · rw [if_pos hc]; rfl
      · rw [if_neg hc]
        simp [lastNotSp, Bool.not_eq_true _ ▸ hc]
    · rw [if_neg ht]
      cases hd : dropTrailingSp isSp cs with
      | nil => rw [hd] at ht; simp at ht
      | cons r rs =>
        rw [hd] at ih
        simpa [lastNotSp] using ih

theorem dropTrailingSp_eq_self (isSp : Char → Bool) (l : List Char)
    (h : lastNotSp isSp l = true) : dropTrailingSp isSp l = l := by
  induction l with
  | nil => rfl
  | cons c cs ih =>
    cases cs with
    | nil =>
      simp only [lastNotSp, Bool.not_eq_true'] at h
      simp [dropTrailingSp, h]
    | cons d ds =>
      have h' : lastNotSp isSp (d :: ds) = true := h
      have hrec : dropTrailingSp isSp (d :: ds) = d :: ds := ih h'
      have hstep : dropTrailingSp isSp (c :: d :: ds) =
          (if (dropTrailingSp isSp (d :: ds)).isEmpty = true then
            (if isSp c = true then [] else [c])
          else c :: dropTrailingSp isSp (d :: ds)) := rfl
      rw [hstep, hrec]
      rw [if_neg (by simp)]

theorem headNotSp_dropTrailingSp (isSp : Char → Bool) (l : List Char)
    (h : headNotSp isSp l = true) :
    headNotSp isSp (dropTrailingSp isSp l) = true := by
  cases l with
  | nil => rfl
  | cons c cs =>
    simp only [dropTrailingSp]
    by_cases ht : (dropTrailingSp isSp cs).isEmpty = true
    · rw [if_pos ht]
      by_cases hc : isSp c = true
      · rw [if_pos hc]; rfl
      · rw [if_neg hc]; exact h
    · rw [if_neg ht]; exact h

theorem mem_pyStrip (isSp : Char → Bool) (l : List Char) (a : Char)
    (h : a ∈ pyStrip isSp l) : a ∈ l :=
  mem_dropWhile isSp l a (mem_dropTrailingSp isSp (l.dropWhile isSp) a h)

theorem chain'_pyStrip (isSp : Char → Bool) (l : List Char)
    (h : List.Chain' (notSpPair isSp) l) :
    List.Chain' (notSpPair isSp) (pyStrip isSp l) :=
  chain'_dropTrailingSp isSp _ (chain'_dropWhile _ isSp l h)

theorem headNotSp_pyStrip (isSp : Char → Bool) (l : List Char) :
    headNotSp isSp (pyStrip isSp l) = true :=
  headNotSp_dropTrailingSp isSp _ (headNotSp_dropWhile isSp l)

theorem lastNotSp_pyStrip (isSp : Char → Bool) (l : List Char) :
    lastNotSp isSp (pyStrip isSp l) = true :=
  lastNotSp_dropTrailingSp isSp _

theorem pyStrip_eq_self (isSp : Char → Bool) (l : List Char)
    (h1 : headNotSp isSp l = true) (h2 : lastNotSp isSp l = true) :
    pyStrip isSp l = l := by
  unfold pyStrip
  rw [dropWhile_eq_self_of_headNotSp isSp l h1, dropTrailingSp_eq_self isSp l h2]

/-! ### Lemmas about sanitize_text -/

theorem mk_toList (s : String) : String.mk s.toList = s := rfl

theorem toList_mk (l : List Char) : (String.mk l).toList = l := rfl

theorem sanOut_sanitize (U : UnicodeModel) (s : String) :
    ∀ c ∈ (sanitize_text U s).toList, sanOutChar c = true := by
  intro c hc
  simp only [sanitize_text, toList_mk] at hc
  rcases mem_collapseWs U.isSpace _ c (mem_pyStrip U.isSpace _ c hc) with rfl | ⟨hm, hsp⟩
  · decide
  · have hk := (List.mem_filter.mp hm).2
    simp only [hsp, Bool.or_false, Bool.false_or] at hk
    simp only [sanOutChar]
    rcases Bool.or_eq_true _ _ |>.mp hk with h | h
    · simp [h]
    · simp [h]

theorem spOnly_sanitize (U : UnicodeModel) (s : String) :
    ∀ c ∈ (sanitize_text U s).toList, U.isSpace c = true → c = ' ' := by
  intro c hc hsp
  simp only [sanitize_text, toList_mk] at hc
  rcases mem_collapseWs U.isSpace _ c (mem_pyStrip U.isSpace _ c hc) with rfl | ⟨_, hsp'⟩
  · rfl
  · rw [hsp] at hsp'; cases hsp'

theorem chain'_sanitize (U : UnicodeModel) (s : String) :
    List.Chain' (notSpPair U.isSpace) (sanitize_text U s).toList := by
  simp only [sanitize_text, toList_mk]
  exact chain'_pyStrip U.isSpace _ (chain'_collapseWs U.isSpace _)

theorem headNotSp_sanitize (U : UnicodeModel) (s : String) :
    headNotSp U.isSpace (sanitize_text U s).toList = true := by
  simp only [sanitize_text, toList_mk]
  exact headNotSp_pyStrip U.isSpace _

theorem lastNotSp_sanitize (U : UnicodeModel) (s : String) :
    lastNotSp U.isSpace (sanitize_text U s).toList = true := by
  simp only [sanitize_text, toList_mk]
  exact lastNotSp_pyStrip U.isSpace _

theorem sanitize_sanitize (U : UnicodeModel) (hU : U.Lawful) (s : String) :
    sanitize_text U (sanitize_text U s) = sanitize_text U s := by
  set out := sanitize_text U s with hout
  have hall : ∀ c ∈ out.toList, sanOutChar c = true := sanOut_sanitize U s
  have hA : U.nfkc out = out := hU.nfkc_fixed out hall
  have hB : out.toList.filter (fun c => U.cat0 c != 'C') = out.toList := by
    refine List.filter_eq_self.mpr ?_
    intro c hc
    have := hU.cat0_not_control c (hall c hc)
    simpa [bne_iff_ne] using this
  have hC : out.toList.filter (fun c => asciiAlnum c || U.isSpace c || c == '.') = out.toList := by
    refine List.filter_eq_self.mpr ?_
    intro c hc
    have hs := hall c hc
    simp only [sanOutChar] at hs
    rcases Bool.or_eq_true _ _ |>.mp hs with h | h
    · rcases Bool.or_eq_true _ _ |>.mp h with h' | h'
      · simp [h']
      · simp [h']
    · have : c = ' ' := by simpa using h
      subst this
      simp [hU.space_isSpace]
  have hD : collapseWs U.isSpace out.toList = out.toList :=
    collapseWs_eq_self U.isSpace _ (chain'_sanitize U s) (spOnly_sanitize U s)
  have hE : pyStrip U.isSpace out.toList = out.toList :=
    pyStrip_eq_self U.isSpace _ (headNotSp_sanitize U s) (lastNotSp_sanitize U s)
  show sanitize_text U out = out
  simp only [sanitize_text]
  rw [hA, hB, hC, hD, hE]
  exact mk_toList out

theorem asciiU_lawful : asciiU.Lawful := by
  constructor
  · intro s _
    rfl
  · intro c h
    simp [asciiU, h]
  · rfl
  · intro c h
    simp only [asciiU]
    rw [beq_eq_false_iff_ne]
    rintro rfl
    simp [asciiAlnum] at h

/-- C10: sanitize_text is idempotent, and consequently the dedup key of a
sanitized text equals the dedup key of the original text, so rows stored
in sanitized form reproduce their key when re-read. -/
theorem sanitize_text_idempotent (U : UnicodeModel) (hU : U.Lawful) (s : String) :
    sanitize_text U (sanitize_text U s) = sanitize_text U s ∧
    dedupe_key U (sanitize_text U s) = dedupe_key U s := by
  refine ⟨sanitize_sanitize U hU s, ?_⟩
  simp only [dedupe_key, sanitize_sanitize U hU s]

/-- Witness for C10 at a concrete lawful Unicode model and input. -/
theorem sanitize_text_idempotent_witness :
    sanitize_text asciiU (sanitize_text asciiU "Hey!!  There..") =
      sanitize_text asciiU "Hey!!  There.." ∧
    dedupe_key asciiU (sanitize_text asciiU "Hey!!  There..") =
      dedupe_key asciiU "Hey!!  There.." :=
  sanitize_text_idempotent asciiU asciiU_lawful "Hey!!  There.."

/-! ### Lemmas about the CSV encoding and the sync pipeline -/

theorem splitFields_no_comma (b : List Char) (h : ',' ∉ b) : splitFields b = [b] := by
  induction b with
  | nil => rfl
  | cons c cs ih =>
    have hc : c ≠ ',' := fun hc => h (hc ▸ List.mem_cons_self _ _)
    have hcs : ',' ∉ cs := fun hm => h (List.mem_cons_of_mem _ hm)
    simp only [splitFields]
    rw [if_neg (fun hh => hc hh), ih hcs]

theorem splitFields_append (a : List Char) (ha : ',' ∉ a) (rest : List Char)
    (f : List Char) (r : List (List Char)) (hr : splitFields rest = f :: r) :
    splitFields (a ++ rest) = (a ++ f) :: r := by
  induction a with
  | nil => simpa using hr
  | cons c cs ih =>
    have hc : c ≠ ',' := fun hc => ha (hc ▸ List.mem_cons_self _ _)
    have hcs : ',' ∉ cs := fun hm => ha (List.mem_cons_of_mem _ hm)
    simp only [List.cons_append, splitFields, List.append_eq]
    rw [if_neg (fun hh => hc hh), ih hcs]

theorem toList_eq_nil (s : String) (h : s.toList = []) : s = "" := by
  have hm := mk_toList s
  rw [h] at hm
  exact hm.symm

theorem splitFields_encodeRow (r : CleanRow) (ht : ',' ∉ r.text.toList)
    (hc : ',' ∉ r.classification.toList) :
    splitFields (encodeRow r) = [r.text.toList, r.classification.toList] := by
  have h1 : splitFields (',' :: r.classification.toList) = [[], r.classification.toList] := by
    simp only [splitFields]
    rw [if_pos trivial, splitFields_no_comma _ hc]
  have h2 := splitFields_append r.text.toList ht (',' :: r.classification.toList)
    [] [r.classification.toList] h1
  simpa [encodeRow] using h2

theorem valid_label_ne_empty (c : String) (h : c ∈ VALID_LABELS) : c ≠ "" := by
  simp only [VALID_LABELS, List.mem_cons, List.not_mem_nil, or_false] at h
  rcases h with rfl | rfl | rfl
  · decide
  · decide
  · decide

theorem decodeLineCols_encode (cols : List String)
    (h0 : cols.indexOf "text" = 0) (h1 : cols.indexOf "classification" = 1)
    (hlen : 1 < cols.length) (r : CleanRow)
    (hne : r.text ≠ "") (hcne : r.classification ≠ "")
    (ht : ',' ∉ r.text.toList) (hcc : ',' ∉ r.classification.toList) :
    decodeLineCols cols (encodeRow r) = some ⟨r.text, r.classification⟩ := by
  have hsf := splitFields_encodeRow r ht hcc
  have htl : r.text.toList ≠ [] := fun hnil => hne (toList_eq_nil _ hnil)
  have hcl : r.classification.toList ≠ [] := fun hnil => hcne (toList_eq_nil _ hnil)
  unfold decodeLineCols
  rw [hsf, h0, h1]
  rw [if_neg (by simp only [List.length_cons, List.length_nil]; omega)]
  simp only [fieldToStr, mk_toList, List.get?]
  simp only [Option.getD_some]
  refine ?_
  simp [mk_toList]
  exact ⟨fun hx => absurd hx htl, fun hx => absurd hx hcl⟩

theorem comma_not_sanOut : sanOutChar ',' = false := by decide

theorem sanitize_no_comma (U : UnicodeModel) (s : String) :
    ',' ∉ (sanitize_text U s).toList := by
  intro hm
  have := sanOut_sanitize U s ',' hm
  rw [comma_not_sanOut] at this
  cases this

theorem mem_sanitizedBatch (U : UnicodeModel) (batch : List DbRow) (r : CleanRow)
    (h : r ∈ sanitizedBatch U batch) :
    (∃ t, r.text = sanitize_text U t) ∧ r.classification ∈ VALID_LABELS := by
  rcases List.mem_map.mp h with ⟨r₀, hr₀, rfl⟩
  refine ⟨⟨r₀.text, rfl⟩, ?_⟩
  have := (List.mem_filter.mp hr₀).2
  simpa [List.contains, List.elem_iff] using this

theorem valid_label_no_comma (c : String) (h : c ∈ VALID_LABELS) : ',' ∉ c.toList := by
  simp only [VALID_LABELS, List.mem_cons, List.not_mem_nil, or_false] at h
  rcases h with rfl | rfl | rfl
  · decide
  · decide
  · decide

theorem mem_dropDupFirst (U : UnicodeModel) (seen : List String) (l : List CleanRow)
    (r : CleanRow) (h : r ∈ dropDupFirst U seen l) : r ∈ l := by
  induction l generalizing seen with
  | nil => simp [dropDupFirst] at h
  | cons x xs ih =>
    simp only [dropDupFirst] at h
    by_cases hx : seen.contains (dedupe_key U x.text) = true
    · rw [if_pos hx] at h
      exact List.mem_cons_of_mem x (ih _ h)
    · rw [if_neg hx] at h
      rcases List.mem_cons.mp h with rfl | h'
      · exact List.mem_cons_self _ _
      · exact List.mem_cons_of_mem x (ih _ h')

theorem dropDupFirst_not_seen (U : UnicodeModel) (seen : List String) (l : List CleanRow)
    (r : CleanRow) (h : r ∈ dropDupFirst U seen l) :
    dedupe_key U r.text ∉ seen := by
  induction l generalizing seen with
  | nil => simp [dropDupFirst] at h
  | cons x xs ih =>
    simp only [dropDupFirst] at h
    by_cases hx : seen.contains (dedupe_key U x.text) = true
    · rw [if_pos hx] at h
      exact ih _ h
    · rw [if_neg hx] at h
      rcases List.mem_cons.mp h with rfl | h'
      · intro hm
        exact hx (by simpa [List.contains, List.elem_iff] using hm)
      · have := ih _ h'
        intro hm
        exact this (List.mem_cons_of_mem _ hm)

theorem dropDupFirst_keys_nodup (U : UnicodeModel) (seen : List String) (l : List CleanRow) :
    ((dropDupFirst U seen l).map fun r => dedupe_key U r.text).Nodup := by
  induction l generalizing seen with
  | nil => simp [dropDupFirst]
  | cons x xs ih =>
    simp only [dropDupFirst]
    by_cases hx : seen.contains (dedupe_key U x.text) = true
    · rw [if_pos hx]
      exact ih _
    · rw [if_neg hx]
      simp only [List.map_cons, List.nodup_cons]
      refine ⟨?_, ih _⟩
      intro hm
      rcases List.mem_map.mp hm with ⟨r, hr, hk⟩
      have := dropDupFirst_not_seen U _ _ r hr
      exact this (hk ▸ List.mem_cons_self _ _)

theorem dropDupFirst_find? (U : UnicodeModel) (seen : List String) (l : List CleanRow)
    (r : CleanRow) (h : r ∈ dropDupFirst U seen l) :
    l.find? (fun x => dedupe_key U x.text == dedupe_key U r.text) = some r := by
  induction l generalizing seen with
  | nil => simp [dropDupFirst] at h
  | cons x xs ih =>
    simp only [dropDupFirst] at h
    by_cases hx : seen.contains (dedupe_key U x.text) = true
    · rw [if_pos hx] at h
      have hne : dedupe_key U x.text ≠ dedupe_key U r.text := by
        intro heq
        have hr := dropDupFirst_not_seen U seen xs r h
        rw [← heq] at hr
        exact hr (by simpa [List.contains, List.elem_iff] using hx)
      rw [List.find?_cons_of_neg _ (by simp [hne])]
      exact ih _ h
    · rw [if_neg hx] at h
      rcases List.mem_cons.mp h with rfl | h'
      · exact List.find?_cons_of_pos _ (by simp)
      · have hr := dropDupFirst_not_seen U _ xs r h'
        have hne : dedupe_key U x.text ≠ dedupe_key U r.text := by
          intro heq
          exact hr (heq ▸ List.mem_cons_self _ _)
        rw [List.find?_cons_of_neg _ (by simp [hne])]
        exact ih _ h'

/-- C3: no data loss on sync.  For every existing corpus file and every
candidate batch, append_db_rows_to_csv leaves every pre-existing line of
the file in place: whether the call returns or raises, the file on disk
afterwards is the old file plus a suffix (so every old row is still
present, unchanged, at its original position). -/
theorem append_db_rows_no_data_loss (U : UnicodeModel) (ls : List Line)
    (batch : List DbRow) :
    ∃ newls, fileAfter (append_db_rows_to_csv U (some ls) batch) (some ls) = some newls
      ∧ newls.take ls.length = ls := by
  unfold append_db_rows_to_csv
  by_cases h1 : batch.isEmpty = true
  · rw [if_pos h1]
    exact ⟨ls, rfl, List.take_length ls⟩
  · rw [if_neg h1]
    by_cases h2 : (validRows U batch).isEmpty = true
    · rw [if_pos h2]
      exact ⟨ls, rfl, List.take_length ls⟩
    · rw [if_neg h2]
      cases hr : read_csv (ensure_csv_header_exists (some ls)) with
      | error e =>
        exact ⟨ls, rfl, List.take_length ls⟩
      | ok csvRows =>
        dsimp only
        by_cases h3 : (to_append U csvRows batch).isEmpty = true
        · rw [if_pos h3]
          exact ⟨ls, rfl, List.take_length ls⟩
        · rw [if_neg h3]
          refine ⟨_, rfl, ?_⟩
          have he : ensure_csv_header_exists (some ls) = ls := rfl
          rw [he, List.append_assoc]
          exact List.take_left ls _

theorem comma_free_of_dropDup (U : UnicodeModel) (batch : List DbRow) (r : CleanRow)
    (hr : r ∈ dropDupFirst U [] (sanitizedBatch U batch)) :
    ',' ∉ r.text.toList ∧ ',' ∉ r.classification.toList := by
  have hmem : r ∈ sanitizedBatch U batch := mem_dropDupFirst U [] _ r hr
  rcases mem_sanitizedBatch U batch r hmem with ⟨⟨t0, htext⟩, hcls⟩
  exact ⟨htext ▸ sanitize_no_comma U t0, valid_label_no_comma _ hcls⟩

/-- A frame whose key set covers both the old frame's keys and the keys of
the rows appended against the old frame dedups the whole batch away. -/
theorem to_append_superset (U : UnicodeModel) (batch : List DbRow)
    (rowsOld rowsNew : List CsvRow)
    (hmono : ∀ k ∈ existing_keys U rowsOld, k ∈ existing_keys U rowsNew)
    (hta : ∀ r ∈ to_append U rowsOld batch, dedupe_key U r.text ∈ existing_keys U rowsNew) :
    to_append U rowsNew batch = [] := by
  have hstep : to_append U rowsNew batch =
      (dropDupFirst U [] (sanitizedBatch U batch)).filter
        (fun r => !(existing_keys U rowsNew).contains (dedupe_key U r.text)) := rfl
  rw [hstep, List.filter_eq_nil_iff]
  intro r hr
  have hkey : dedupe_key U r.text ∈ existing_keys U rowsNew := by
    by_cases hex : (existing_keys U rowsOld).contains (dedupe_key U r.text) = true
    · exact hmono _ (by simpa [List.contains, List.elem_iff] using hex)
    · refine hta r (List.mem_filter.mpr ⟨hr, ?_⟩)
      simp only [Bool.not_eq_true'] at hex ⊢
      simpa using hex
  have hcont : (existing_keys U rowsNew).contains (dedupe_key U r.text) = true := by
    simp only [List.contains, List.elem_iff]
    exact hkey
  intro hfalse
  have hfalse' : (!(existing_keys U rowsNew).contains (dedupe_key U r.text)) = true := hfalse
  rw [hcont] at hfalse'
  exact Bool.noConfusion hfalse'

theorem goodFile_some (hd : Line) (t : List Line) (h : goodFile (some (hd :: t)) = true) :
    schemaOk (renamedCols hd) = true ∧ (renamedCols hd).indexOf "text" = 0
      ∧ (renamedCols hd).indexOf "classification" = 1 := by
  simp only [goodFile, Bool.and_eq_true, beq_iff_eq] at h
  exact ⟨h.1.1, h.1.2, h.2⟩

theorem headerLine_wellformed :
    schemaOk (renamedCols headerLine) = true ∧ (renamedCols headerLine).indexOf "text" = 0
      ∧ (renamedCols headerLine).indexOf "classification" = 1 := by
  refine ⟨by decide, by decide, by decide⟩

theorem one_lt_length_of_cols (cols : List String)
    (hok : schemaOk cols = true) (h1 : cols.indexOf "classification" = 1) :
    1 < cols.length := by
  have hmem : "classification" ∈ cols := by
    simp only [schemaOk, Bool.and_eq_true] at hok
    simpa [List.contains, List.elem_iff] using hok.2
  have hlt := List.indexOf_lt_length.mpr hmem
  rwa [h1] at hlt

/-- After a run appends its surviving rows (behind any interposed header
line), re-reading the grown file under the same well-formed header yields
a frame whose keys absorb the whole batch: nothing survives a second
dedup, provided every surviving sanitized text was non-empty (an empty
text field would re-read as NaN and miss its own key). -/
theorem to_append_after (U : UnicodeModel) (hd : Line) (data : List Line)
    (batch : List DbRow)
    (hok : schemaOk (renamedCols hd) = true)
    (h0 : (renamedCols hd).indexOf "text" = 0)
    (h1 : (renamedCols hd).indexOf "classification" = 1)
    (hb : ∀ r ∈ sanitizedBatch U batch, r.text ≠ "")
    (mid : List Line) :
    to_append U (List.filterMap (decodeLineCols (renamedCols hd)) ((data ++ mid)
        ++ (to_append U (data.filterMap (decodeLineCols (renamedCols hd))) batch).map encodeRow))
      batch = [] := by
  have hdec : List.filterMap (decodeLineCols (renamedCols hd)) ((data ++ mid)
        ++ (to_append U (data.filterMap (decodeLineCols (renamedCols hd))) batch).map encodeRow)
      = (data.filterMap (decodeLineCols (renamedCols hd))
          ++ mid.filterMap (decodeLineCols (renamedCols hd)))
        ++ List.filterMap (decodeLineCols (renamedCols hd))
            ((to_append U (data.filterMap (decodeLineCols (renamedCols hd))) batch).map encodeRow) := by
    rw [List.filterMap_append, List.filterMap_append]
  rw [hdec]
  refine to_append_superset U batch (data.filterMap (decodeLineCols (renamedCols hd))) _ ?_ ?_
  · intro k hk
    simp only [existing_keys, List.map_append, List.mem_append] at hk ⊢
    exact Or.inl (Or.inl hk)
  · intro r hr
    have hdd : r ∈ dropDupFirst U [] (sanitizedBatch U batch) := (List.mem_filter.mp hr).1
    have hmem : r ∈ sanitizedBatch U batch := mem_dropDupFirst U [] _ r hdd
    rcases mem_sanitizedBatch U batch r hmem with ⟨⟨t0, htext⟩, hcls⟩
    have ht : ',' ∉ r.text.toList := htext ▸ sanitize_no_comma U t0
    have hcc := valid_label_no_comma _ hcls
    have hne := hb r hmem
    have hcne := valid_label_ne_empty _ hcls
    have hlen := one_lt_length_of_cols _ hok h1
    have hdecenc : decodeLineCols (renamedCols hd) (encodeRow r)
        = some ⟨r.text, r.classification⟩ :=
      decodeLineCols_encode _ h0 h1 hlen r hne hcne ht hcc
    have hrow : (⟨r.text, r.classification⟩ : CsvRow)
        ∈ List.filterMap (decodeLineCols (renamedCols hd))
            ((to_append U (data.filterMap (decodeLineCols (renamedCols hd))) batch).map encodeRow) :=
      List.mem_filterMap.mpr ⟨encodeRow r, List.mem_map_of_mem _ hr, hdecenc⟩
    simp only [existing_keys, List.map_append, List.mem_append]
    exact Or.inr (List.mem_map_of_mem _ hrow)

/-- Counterexample to C4 as stated.  Start with no corpus file and the
single remote candidate id 7, text three exclamation marks, label benign:
its sanitized text is empty, so the first sync stores an empty text field;
pandas re-reads that field as NaN, astype(str) turns it into the string
form of NaN, and its dedup key no longer matches the candidate's empty
key — the second sync with the same remote data appends the row again and
returns id 7 again instead of the empty list. -/
theorem sync_not_idempotent_counterexample :
    idsOf (append_db_rows_to_csv asciiU
        (fileAfter (append_db_rows_to_csv asciiU none [⟨7, some "!!!", some "benign"⟩]) none)
        [⟨7, some "!!!", some "benign"⟩]) = [7]
    ∧ ([7] : List Int) ≠ [] := by
  refine ⟨by decide, by decide⟩

/-- C4 amended: sync is idempotent on well-formed corpus files and
candidates whose sanitized text is non-empty.  Provided the corpus file
is absent or carries a well-formed text,classification header (the layout
every file written by this program has) and every valid candidate's
sanitized text is non-empty, the first append returns normally and a
second append with the same batch appends zero rows, returns the empty id
list, and leaves the file exactly as the first run left it.  (A candidate
whose sanitized text is empty is stored as an empty field, re-read as the
string form of NaN, and re-appended by every subsequent run.) -/
theorem sync_idempotent_of_wellformed (U : UnicodeModel) (f : Option (List Line))
    (batch : List DbRow) (hf : goodFile f = true)
    (hb : ∀ r ∈ sanitizedBatch U batch, r.text ≠ "") :
    ∃ ids f₁, append_db_rows_to_csv U f batch = .ok (ids, f₁)
      ∧ append_db_rows_to_csv U f₁ batch = .ok ([], f₁) := by
  by_cases h1 : batch.isEmpty = true
  · refine ⟨[], f, ?_, ?_⟩ <;>
      (unfold append_db_rows_to_csv; rw [if_pos h1])
  · by_cases h2 : (validRows U batch).isEmpty = true
    · refine ⟨[], f, ?_, ?_⟩ <;>
        (unfold append_db_rows_to_csv; rw [if_neg h1, if_pos h2])
    · have hfacts : ∃ hd data, ensure_csv_header_exists f = hd :: data
          ∧ schemaOk (renamedCols hd) = true
          ∧ (renamedCols hd).indexOf "text" = 0
          ∧ (renamedCols hd).indexOf "classification" = 1 := by
        cases f with
        | none =>
          exact ⟨headerLine, [], rfl, headerLine_wellformed.1,
            headerLine_wellformed.2.1, headerLine_wellformed.2.2⟩
        | some ls =>
          cases ls with
          | nil => simp [goodFile] at hf
          | cons hd t =>
            obtain ⟨a, b, c⟩ := goodFile_some hd t hf
            exact ⟨hd, t, rfl, a, b, c⟩
      obtain ⟨hd, data, hensure, hok, h0, hone⟩ := hfacts
      have hread : read_csv (ensure_csv_header_exists f)
          = .ok (data.filterMap (decodeLineCols (renamedCols hd))) := by
        rw [hensure]
        simp only [read_csv]
        rw [if_pos hok]
      by_cases h3 : (to_append U (data.filterMap (decodeLineCols (renamedCols hd))) batch).isEmpty = true
      · refine ⟨[], some (ensure_csv_header_exists f), ?_, ?_⟩
        · unfold append_db_rows_to_csv
          rw [if_neg h1, if_neg h2, hread]
          dsimp only
          rw [if_pos h3]
        · unfold append_db_rows_to_csv
          rw [if_neg h1, if_neg h2]
          have he : ensure_csv_header_exists (some (ensure_csv_header_exists f))
              = ensure_csv_header_exists f := rfl
          rw [he, hread]
          dsimp only
          rw [if_pos h3]
      · refine ⟨(to_append U (data.filterMap (decodeLineCols (renamedCols hd))) batch).map (·.id),
          some (ensure_csv_header_exists f
            ++ (if (data.filterMap (decodeLineCols (renamedCols hd))).isEmpty then [headerLine] else [])
            ++ (to_append U (data.filterMap (decodeLineCols (renamedCols hd))) batch).map encodeRow),
          ?_, ?_⟩
        · unfold append_db_rows_to_csv
          rw [if_neg h1, if_neg h2, hread]
          dsimp only
          rw [if_neg h3]
        · unfold append_db_rows_to_csv
          rw [if_neg h1, if_neg h2]
          have he : ensure_csv_header_exists (some (ensure_csv_header_exists f
              ++ (if (data.filterMap (decodeLineCols (renamedCols hd))).isEmpty then [headerLine] else [])
              ++ (to_append U (data.filterMap (decodeLineCols (renamedCols hd))) batch).map encodeRow))
              = ensure_csv_header_exists f
                ++ (if (data.filterMap (decodeLineCols (renamedCols hd))).isEmpty then [headerLine] else [])
                ++ (to_append U (data.filterMap (decodeLineCols (renamedCols hd))) batch).map encodeRow := rfl
          rw [he]
          have hls' : ensure_csv_header_exists f
              ++ (if (data.filterMap (decodeLineCols (renamedCols hd))).isEmpty then [headerLine] else [])
              ++ (to_append U (data.filterMap (decodeLineCols (renamedCols hd))) batch).map encodeRow
              = hd :: ((data ++ (if (data.filterMap (decodeLineCols (renamedCols hd))).isEmpty then [headerLine] else []))
                ++ (to_append U (data.filterMap (decodeLineCols (renamedCols hd))) batch).map encodeRow) := by
            rw [hensure]
            rfl
          rw [hls']
          have hread2 : read_csv (hd :: ((data
                ++ (if (data.filterMap (decodeLineCols (renamedCols hd))).isEmpty then [headerLine] else []))
                ++ (to_append U (data.filterMap (decodeLineCols (renamedCols hd))) batch).map encodeRow))
              = .ok (List.filterMap (decodeLineCols (renamedCols hd)) ((data
                ++ (if (data.filterMap (decodeLineCols (renamedCols hd))).isEmpty then [headerLine] else []))
                ++ (to_append U (data.filterMap (decodeLineCols (renamedCols hd))) batch).map encodeRow)) := by
            simp only [read_csv]
            rw [if_pos hok]
          rw [hread2]
          dsimp only
          have hta2 := to_append_after U hd data batch hok h0 hone hb
            (if (data.filterMap (decodeLineCols (renamedCols hd))).isEmpty then [headerLine] else [])
          rw [hta2]
          rfl

/-- Witness for the amended C4 at a concrete well-formed corpus file and a
concrete batch with non-empty sanitized texts. -/
theorem sync_idempotent_of_wellformed_witness :
    ∃ ids f₁,
      append_db_rows_to_csv asciiU (some [headerLine, String.toList "buy milk,benign"])
        [⟨1, some "BUY milk", some "benign"⟩, ⟨2, some "bomb threat at station", some "critical"⟩]
        = .ok (ids, f₁)
      ∧ append_db_rows_to_csv asciiU f₁
        [⟨1, some "BUY milk", some "benign"⟩, ⟨2, some "bomb threat at station", some "critical"⟩]
        = .ok ([], f₁) :=
  sync_idempotent_of_wellformed asciiU (some [headerLine, String.toList "buy milk,benign"])
    [⟨1, some "BUY milk", some "benign"⟩, ⟨2, some "bomb threat at station", some "critical"⟩]
    (by decide) (by decide)

/-- Counterexample to C5 as stated.  The corpus holds one row stored with
an empty text field; the candidate with text three exclamation marks
sanitizes to the empty string, so its dedup key equals the stored row's
dedup key — the claim says such a colliding candidate is dropped — yet
the program appends it and returns its id, because the stored empty field
re-reads as NaN and contributes the key of the string form of NaN. -/
theorem existing_empty_text_collision_counterexample :
    dedupe_key asciiU "!!!" = dedupe_key asciiU ""
    ∧ idsOf (append_db_rows_to_csv asciiU (some [headerLine, String.toList ",benign"])
        [⟨7, some "!!!", some "benign"⟩]) = [7]
    ∧ ([7] : List Int) ≠ [] := by
  refine ⟨by decide, by decide, by decide⟩

/-- C5 amended: deduplication and returned ids, against the re-read key
set.  The surviving rows have pairwise distinct dedup keys; each survivor
is the first row of the sanitized batch carrying its key (first-seen wins
within the batch); every survivor's key is absent from the keys the
program re-reads from the existing corpus — which equal the stored rows'
dedup keys except that a row stored with an empty text field re-reads as
the string form of NaN, so a candidate colliding with such a row is not
dropped — and the returned ids are exactly the ids of the surviving
rows. -/
theorem append_db_rows_dedup_first_seen_and_ids (U : UnicodeModel)
    (f : Option (List Line)) (batch : List DbRow) (csvRows : List CsvRow)
    (h : read_csv (ensure_csv_header_exists f) = .ok csvRows) :
    ((to_append U csvRows batch).map fun r => dedupe_key U r.text).Nodup
    ∧ ((to_append U csvRows batch).all fun r =>
        (sanitizedBatch U batch).find? (fun x => dedupe_key U x.text == dedupe_key U r.text)
          == some r) = true
    ∧ ((to_append U csvRows batch).all fun r =>
        !(existing_keys U csvRows).contains (dedupe_key U r.text)) = true
    ∧ idsOf (append_db_rows_to_csv U f batch) = (to_append U csvRows batch).map (·.id) := by
  refine ⟨?_, ?_, ?_, ?_⟩
  · have hnd := dropDupFirst_keys_nodup U [] (sanitizedBatch U batch)
    have hsub : List.Sublist
        ((to_append U csvRows batch).map (fun r => dedupe_key U r.text))
        ((dropDupFirst U [] (sanitizedBatch U batch)).map (fun r => dedupe_key U r.text)) :=
      List.Sublist.map _ (List.filter_sublist _)
    exact hnd.sublist hsub
  · refine List.all_eq_true.mpr ?_
    intro r hr
    have hdrop : r ∈ dropDupFirst U [] (sanitizedBatch U batch) := (List.mem_filter.mp hr).1
    have := dropDupFirst_find? U [] (sanitizedBatch U batch) r hdrop
    simp [this]
  · refine List.all_eq_true.mpr ?_
    intro r hr
    exact (List.mem_filter.mp hr).2
  · unfold append_db_rows_to_csv
    by_cases h1 : batch.isEmpty = true
    · rw [if_pos h1, List.isEmpty_iff.mp h1]
      rfl
    · rw [if_neg h1]
      by_cases h2 : (validRows U batch).isEmpty = true
      · rw [if_pos h2]
        have hsb : sanitizedBatch U batch = [] := by
          unfold sanitizedBatch
          rw [List.isEmpty_iff.mp h2]
          rfl
        show ([] : List Int) = _
        unfold to_append
        rw [hsb]
        rfl
      · rw [if_neg h2, h]
        dsimp only
        by_cases h3 : (to_append U csvRows batch).isEmpty = true
        · rw [if_pos h3, List.isEmpty_iff.mp h3]
          rfl
        · rw [if_neg h3]
          rfl

/-- Witness for the amended C5 at a concrete corpus file, its read frame,
and a concrete batch. -/
theorem append_db_rows_dedup_first_seen_and_ids_witness :
    ((to_append asciiU [⟨"buy milk", "benign"⟩]
        [⟨1, some "BUY milk", some "benign"⟩,
         ⟨2, some "bomb threat at station", some "critical"⟩]).map
      fun r => dedupe_key asciiU r.text).Nodup
    ∧ ((to_append asciiU [⟨"buy milk", "benign"⟩]
        [⟨1, some "BUY milk", some "benign"⟩,
         ⟨2, some "bomb threat at station", some "critical"⟩]).all fun r =>
        (sanitizedBatch asciiU
          [⟨1, some "BUY milk", some "benign"⟩,
           ⟨2, some "bomb threat at station", some "critical"⟩]).find?
            (fun x => dedupe_key asciiU x.text == dedupe_key asciiU r.text)
          == some r) = true
    ∧ ((to_append asciiU [⟨"buy milk", "benign"⟩]
        [⟨1, some "BUY milk", some "benign"⟩,
         ⟨2, some "bomb threat at station", some "critical"⟩]).all fun r =>
        !(existing_keys asciiU [⟨"buy milk", "benign"⟩]).contains
          (dedupe_key asciiU r.text)) = true
    ∧ idsOf (append_db_rows_to_csv asciiU (some [headerLine, String.toList "buy milk,benign"])
        [⟨1, some "BUY milk", some "benign"⟩,
         ⟨2, some "bomb threat at station", some "critical"⟩])
        = (to_append asciiU [⟨"buy milk", "benign"⟩]
          [⟨1, some "BUY milk", some "benign"⟩,
           ⟨2, some "bomb threat at station", some "critical"⟩]).map (·.id) :=
  append_db_rows_dedup_first_seen_and_ids asciiU
    (some [headerLine, String.toList "buy milk,benign"])
    [⟨1, some "BUY milk", some "benign"⟩, ⟨2, some "bomb threat at station", some "critical"⟩]
    [⟨"buy milk", "benign"⟩] (by rfl)

/-- Counterexample to C1 as stated: a reader whose load is interleaved
after the tokenizer write but before the model write observes the new
tokenizer together with the old model, which is neither the old
generation in full nor the new generation in full. -/
theorem save_artifacts_torn_read_counterexample :
    load_model_and_tokenizer (runSteps ((save_artifacts_steps 1).take 2) (uniformFS 0)) = (1, 0)
    ∧ ((1 : Nat), (0 : Nat)) ≠ ((0 : Nat), (0 : Nat))
    ∧ ((1 : Nat), (0 : Nat)) ≠ ((1 : Nat), (1 : Nat)) := by
  refine ⟨rfl, by decide, by decide⟩

/-- C1 amended: save_artifacts overwrites the artifact files in place,
sequentially (metrics, tokenizer, model JSON, weights, full model), with
no write-then-rename step; a reader that loads entirely before the
publish observes the old generation in full and a reader that loads
entirely after it completes observes the new generation in full. -/
theorem save_artifacts_sequential_inplace (g g' : Nat) :
    load_model_and_tokenizer (uniformFS g) = (g, g)
    ∧ load_model_and_tokenizer (runSteps (save_artifacts_steps g') (uniformFS g)) = (g', g') :=
  ⟨rfl, rfl⟩

/-- Counterexample to C2 as stated: with a valid lock token present and
its owner alive, a retrain request still starts another training
execution (the run counter goes from 1 to 2) and returns no
already_running signal. -/
theorem request_retrain_not_refused_counterexample :
    request_retrain 6 ⟨some 5, true, 1⟩ = (none, ⟨none, true, 2⟩)
    ∧ (request_retrain 6 ⟨some 5, true, 1⟩).1 ≠ some "already_running" := by
  refine ⟨rfl, by decide⟩

/-- C2 amended: the retrain endpoint performs no lock check and returns
no status body: every call starts exactly one more training execution
regardless of the lock state (touch_training_lock simply overwrites any
existing token), and no already_running signal exists. -/
theorem request_retrain_always_starts (now : Nat) (s : OrchState) :
    (request_retrain now s).1 = none
    ∧ (request_retrain now s).2.runsStarted = s.runsStarted + 1
    ∧ (request_retrain now s).2.lock = none :=
  ⟨rfl, rfl, rfl⟩

/-- Counterexample to C6 as stated: a token whose owner is alive does not
block the next run either — retrain_main proceeds (starting a training
execution) over a live token exactly as over a stale one, with no
staleness detection. -/
theorem live_lock_does_not_block_counterexample :
    retrain_main 7 ⟨some 6, true, 0⟩ = ⟨none, true, 1⟩
    ∧ (retrain_main 7 ⟨some 6, true, 0⟩).runsStarted ≠ 0 := by
  refine ⟨rfl, by decide⟩

/-- C6 amended: the next run never inspects the existing token.
retrain_main unconditionally overwrites any token — stale or live — with
its own timestamp, proceeds with training, and removes the token on
exit.  A stale token is therefore reclaimed without manual intervention,
but a token with a live owner does not block a new run either. -/
theorem retrain_main_ignores_existing_lock (now ts : Nat) (alive : Bool) (n : Nat) :
    retrain_main now ⟨some ts, alive, n⟩ = ⟨none, alive, n + 1⟩
    ∧ retrain_main now ⟨none, alive, n⟩ = ⟨none, alive, n + 1⟩ :=
  ⟨rfl, rfl⟩

/-- C7: get_model_metrics returns the literal 3 as trained_examples in
every state — the metrics file it reads and the corpus row count it
computes are both dead locals — so after a run that saved metric 0.97 and
trained-examples 120, the endpoint still reports 3. -/
theorem get_model_metrics_hardcodes_trained_examples (s : ApiState) :
    (get_model_metrics s).trained_examples = 3
    ∧ (∀ m : Option MetricsJson, get_model_metrics { s with metricsFile := m }
        = get_model_metrics s)
    ∧ (get_model_metrics ⟨some ⟨97 / 100, 120⟩, some 120, false, some 0, some 0, none⟩).trained_examples
        ≠ 120 :=
  ⟨rfl, fun _ => rfl, by decide⟩

/-- C8: a remote-source failure degrades, never fails the run: the fetch
returns the empty candidate frame (whose row type has exactly the columns
id, text, classification), the sync pipeline then appends nothing and
returns no ids, and the corpus the training step loads is unchanged. -/
theorem fetch_failure_degrades (U : UnicodeModel) (e : String) (f : Option (List Line)) :
    fetch_untrained_db_rows U (Except.error e) = []
    ∧ sync_pipeline U (Except.error e) f = .ok ([], f)
    ∧ load_csv_data U (fileAfter (sync_pipeline U (Except.error e) f) f) = load_csv_data U f :=
  ⟨rfl, rfl, rfl⟩

/-- C9: the train/validation split of main is deterministic: because the
call passes the constant seed RANDOM_STATE and ratio VAL_SPLIT, the
partition is a pure function of the dataset, the seed and the ratio —
independent of the ambient random-generator state, so two runs on the
same inputs produce identical partitions. -/
theorem main_split_deterministic {α β : Type}
    (seededSplit : Rat → Nat → List α → List β → SplitResult α β)
    (X : List α) (y : List β) (g g' : Nat) :
    (main_split seededSplit g X y).1 = (main_split seededSplit g' X y).1
    ∧ (main_split seededSplit g X y).1 = seededSplit VAL_SPLIT RANDOM_STATE X y :=
  ⟨rfl, rfl⟩

end TextIntel
